import Mathlib

/-!
Verification of the GnomeUtils telemetry/error-reporting subsystem.

The development shallowly embeds the Rust source:
* `src/logging.rs` — `WebhookLogger::loop_func`, the per-tick flush that
  formats buffered log events, splits them into ≤ 2000-byte chunks, and
  routes them to one of two webhook destinations;
* `src/errors.rs` — `handle_unexpected`, the deduplicating error reporter
  backed by the `errors` SQL table and a Discord webhook.

Rust strings are modelled as `List Char` (Unicode scalar values); byte
lengths use the UTF-8 size of each character, matching Rust's `str::len`.
External collaborators (the SHA-256 digest from the `sha2` crate, the
database connection, the Discord HTTP API) are modelled by explicit
parameters: the digest is an arbitrary function argument (only its
determinism is used), and each fallible external call is driven by a
boolean outcome oracle so that failure paths can be examined.
-/

namespace GnomeUtils

/-! ## Logging (`src/logging.rs`) -/

/-- The Unicode `White_Space` code points, as matched by Rust's
`char::is_whitespace`, which `str::trim` uses (logging.rs line 61). -/
def rustIsWhitespace (c : Char) : Bool :=
  [0x09, 0x0A, 0x0B, 0x0C, 0x0D, 0x20, 0x85, 0xA0, 0x1680,
   0x2000, 0x2001, 0x2002, 0x2003, 0x2004, 0x2005, 0x2006, 0x2007,
   0x2008, 0x2009, 0x200A, 0x2028, 0x2029, 0x202F, 0x205F, 0x3000].contains
    c.val.toNat

/-- Rust `str::trim`: strip leading and trailing whitespace
(logging.rs line 61, `log_message.trim()`). -/
def trimChars (s : List Char) : List Char :=
  ((s.dropWhile rustIsWhitespace).reverse.dropWhile rustIsWhitespace).reverse

/-- Rust `str::split('\n')` (logging.rs line 61): the segments between
newlines; the empty string yields one empty segment. -/
def splitNl : List Char → List (List Char)
  | [] => [[]]
  | c :: rest =>
    match splitNl rest with
    | [] => [[c]]
    | g :: gs => if c = '\n' then [] :: g :: gs else (c :: g) :: gs

/-- Rust `str::split_inclusive('\n')` (logging.rs line 67): segments keep
their trailing newline; the empty string yields no segments. -/
def splitInclusiveNl : List Char → List (List Char)
  | [] => []
  | c :: rest =>
    match splitInclusiveNl rest with
    | [] => [[c]]
    | g :: gs => if c = '\n' then [c] :: g :: gs else (c :: g) :: gs

/-- Rust `str::len`: the UTF-8 byte length of a string. -/
def utf8Len (s : List Char) : Nat := (s.map Char.utf8Size).sum

/-- One formatted display line (logging.rs line 62):
`format!("`[{}]`: {}\n", target, line)`. -/
def formatLine (target line : List Char) : List Char :=
  "`[".toList ++ target ++ "]`: ".toList ++ line ++ ['\n']

/-- A drained buffer entry: `(target, log_message)` (logging.rs line 9,
`type LogMessage = (&'static str, String)`). -/
abbrev LogMessage := List Char × List Char

/-- The formatted lines produced from one severity's drained messages
(logging.rs lines 58-65): each message is trimmed, split on `'\n'`, and
each resulting line is formatted with `formatLine`. -/
def formattedLines (msgs : List LogMessage) : List (List Char) :=
  msgs.flatMap fun m => (splitNl (trimChars m.2)).map (formatLine m.1)

/-- The `pre_chunked` string (logging.rs lines 58-65): the concatenation of all
formatted lines for one severity. -/
def preChunked (msgs : List LogMessage) : List Char :=
  (formattedLines msgs).flatten

/-- One iteration of the chunking loop (logging.rs lines 67-77).  The
source appends to `chunks` and mutates `chunks.last_mut()`; here the
chunk list is kept in reverse order, so the head is the chunk currently
being filled, and `buildChunks` reverses at the end. -/
def addLine (chunks : List (List Char)) (line : List Char) : List (List Char) :=
  match chunks with
  | [] => [line]
  | chunk :: rest =>
    if utf8Len chunk + utf8Len line > 2000 then line :: chunk :: rest
    else (chunk ++ line) :: rest

/-- The chunking loop over the inclusive line split (logging.rs lines
67-77). -/
def buildChunks (lines : List (List Char)) : List (List Char) :=
  (lines.foldl addLine []).reverse

/-- The chunks that one severity's drained messages produce in one flush
(logging.rs lines 57-77). -/
def chunksOf (msgs : List LogMessage) : List (List Char) :=
  buildChunks (splitInclusiveNl (preChunked msgs))

/-- The `tracing::Level` enum (closed enum of the five severities). -/
inductive Level
  | trace | debug | info | warn | error
deriving DecidableEq

/-- The `tracing` crate orders levels by verbosity: `ERROR` is the least
and `TRACE` the greatest (`ERROR < WARN < INFO < DEBUG < TRACE`).  This
index realises that order. -/
def Level.verbosity : Level → Nat
  | .error => 0
  | .warn => 1
  | .info => 2
  | .debug => 3
  | .trace => 4

/-- Whether `a <= b` in the `tracing::Level` ordering (by verbosity). -/
def Level.tracingLe (a b : Level) : Bool :=
  Nat.ble a.verbosity b.verbosity

/-- The index of the spec's severity ordering
(`Trace < Debug < Info < Warn < Error`). -/
def Level.specIdx : Level → Nat
  | .trace => 0
  | .debug => 1
  | .info => 2
  | .warn => 3
  | .error => 4

/-- Whether `a <= b` in the spec's severity ordering. -/
def specLe (a b : Level) : Bool :=
  Nat.ble a.specIdx b.specIdx

/-- The two delivery destinations (`normal_logs` and `error_logs`). -/
inductive Dest
  | normal | error
deriving DecidableEq

/-- One iteration of the per-severity flush loop (logging.rs lines
56-100): the chunks built from the drained messages, and the webhook they
are delivered to.  The destination mirrors line 79:
`if tracing::Level::ERROR >= severity { &self.error_logs } else { &self.normal_logs }`,
i.e. `severity <= ERROR` in the tracing ordering. -/
def flushSeverity (sev : Level) (msgs : List LogMessage) : Dest × List (List Char) :=
  (if Level.tracingLe sev Level.error then Dest.error else Dest.normal, chunksOf msgs)

/-! ## Lemmas about the chunking pipeline -/

theorem utf8Len_append (a b : List Char) :
    utf8Len (a ++ b) = utf8Len a + utf8Len b := by
  simp [utf8Len]

theorem splitInclusiveNl_flatten (s : List Char) :
    (splitInclusiveNl s).flatten = s := by
  induction s with
  | nil => rfl
  | cons c rest ih =>
    cases hsplit : splitInclusiveNl rest with
    | nil =>
      have hrest : rest = [] := by rw [← ih, hsplit]; rfl
      simp [splitInclusiveNl, hsplit, hrest]
    | cons g gs =>
      rw [hsplit] at ih
      by_cases h : c = '\n' <;>
        simp [splitInclusiveNl, hsplit, h] <;> simpa using ih

theorem splitInclusiveNl_line_append (l : List Char) (hl : '\n' ∉ l) (s : List Char) :
    splitInclusiveNl (l ++ '\n' :: s) = (l ++ ['\n']) :: splitInclusiveNl s := by
  induction l with
  | nil =>
    cases hsplit : splitInclusiveNl s with
    | nil => simp [splitInclusiveNl, hsplit]
    | cons g gs => simp [splitInclusiveNl, hsplit]
  | cons c l ih =>
    have hc : ¬ c = '\n' := fun h => hl (h ▸ List.mem_cons_self c l)
    have hl' : '\n' ∉ l := fun h => hl (List.mem_cons_of_mem c h)
    simp [splitInclusiveNl, ih hl', hc]

theorem splitInclusiveNl_flatten_lines (lineList : List (List Char))
    (h : ∀ l ∈ lineList, ∃ body, l = body ++ ['\n'] ∧ '\n' ∉ body) :
    splitInclusiveNl lineList.flatten = lineList := by
  induction lineList with
  | nil => rfl
  | cons l ls ih =>
    obtain ⟨body, rfl, hbody⟩ := h l (List.mem_cons_self l ls)
    have ih' := ih fun l hl => h l (List.mem_cons_of_mem _ hl)
    calc splitInclusiveNl ((body ++ ['\n']) :: ls).flatten
        = splitInclusiveNl (body ++ '\n' :: ls.flatten) := by simp
      _ = (body ++ ['\n']) :: splitInclusiveNl ls.flatten :=
          splitInclusiveNl_line_append body hbody ls.flatten
      _ = (body ++ ['\n']) :: ls := by rw [ih']

theorem splitNl_ne_nil (s : List Char) : splitNl s ≠ [] := by
  cases s with
  | nil => simp [splitNl]
  | cons c rest =>
    cases hsplit : splitNl rest with
    | nil => simp [splitNl, hsplit]
    | cons g gs => by_cases h : c = '\n' <;> simp [splitNl, hsplit, h]

theorem splitNl_no_newline (s : List Char) : ∀ p ∈ splitNl s, '\n' ∉ p := by
  induction s with
  | nil =>
    intro p hp
    simp [splitNl] at hp
    simp [hp]
  | cons c rest ih =>
    intro p hp
    cases hsplit : splitNl rest with
    | nil => exact absurd hsplit (splitNl_ne_nil rest)
    | cons g gs =>
      rw [hsplit] at ih
      by_cases h : c = '\n'
      · simp [splitNl, hsplit, h] at hp
        rcases hp with rfl | hp
        · simp
        · exact ih p (by simp [hp])
      · simp [splitNl, hsplit, h] at hp
        rcases hp with rfl | hp
        · intro hmem
          rcases List.mem_cons.mp hmem with heq | hmem
          · exact h heq.symm
          · exact ih g (List.mem_cons_self g gs) hmem
        · exact ih p (List.mem_cons_of_mem g hp)

theorem formatLine_shape (target body : List Char) (ht : '\n' ∉ target) (hb : '\n' ∉ body) :
    ∃ interior, formatLine target body = interior ++ ['\n'] ∧ '\n' ∉ interior := by
  refine ⟨"`[".toList ++ target ++ "]`: ".toList ++ body, by simp [formatLine], ?_⟩
  intro hmem
  simp only [List.mem_append] at hmem
  rcases hmem with ((h | h) | h) | h
  · exact absurd h (by decide)
  · exact ht h
  · exact absurd h (by decide)
  · exact hb h

theorem foldl_addLine_bounded (lineSet : List (List Char)) :
    ∀ (rest acc : List (List Char)),
      (∀ l ∈ rest, l ∈ lineSet) →
      (∀ c ∈ acc, utf8Len c ≤ 2000 ∨ c ∈ lineSet) →
      ∀ c ∈ rest.foldl addLine acc, utf8Len c ≤ 2000 ∨ c ∈ lineSet := by
  intro rest
  induction rest with
  | nil => exact fun acc _ hacc c hc => hacc c hc
  | cons line rest ih =>
    intro acc hrest hacc c hc
    refine ih (addLine acc line) (fun l hl => hrest l (List.mem_cons_of_mem _ hl)) ?_ c hc
    intro d hd
    have hline : line ∈ lineSet := hrest line (List.mem_cons_self _ _)
    cases acc with
    | nil =>
      simp [addLine] at hd
      exact hd ▸ Or.inr hline
    | cons chunk rest' =>
      by_cases hsize : utf8Len chunk + utf8Len line > 2000
      · simp [addLine, hsize] at hd
        rcases hd with rfl | rfl | hd
        · exact Or.inr hline
        · exact hacc _ (List.mem_cons_self _ _)
        · exact hacc d (List.mem_cons_of_mem _ hd)
      · simp [addLine, hsize] at hd
        rcases hd with rfl | hd
        · left
          rw [utf8Len_append]
          omega
        · exact hacc d (List.mem_cons_of_mem _ hd)

theorem buildChunks_bounded (lines : List (List Char)) :
    ∀ c ∈ buildChunks lines, utf8Len c ≤ 2000 ∨ c ∈ lines := by
  intro c hc
  rw [buildChunks, List.mem_reverse] at hc
  exact foldl_addLine_bounded lines lines [] (fun l hl => hl) (by simp) c hc

theorem foldl_addLine_partition (rest : List (List Char)) :
    ∀ gs : List (List (List Char)),
      ∃ gs2 : List (List (List Char)),
        rest.foldl addLine (gs.map List.flatten) = gs2.map List.flatten ∧
        gs2.reverse.flatten = gs.reverse.flatten ++ rest := by
  induction rest with
  | nil => exact fun gs => ⟨gs, rfl, by simp⟩
  | cons line rest ih =>
    intro gs
    cases gs with
    | nil =>
      obtain ⟨gs2, h1, h2⟩ := ih [[line]]
      refine ⟨gs2, ?_, ?_⟩
      · simpa [addLine] using h1
      · rw [h2]; simp
    | cons g gs' =>
      by_cases hsize : utf8Len g.flatten + utf8Len line > 2000
      · obtain ⟨gs2, h1, h2⟩ := ih ([line] :: g :: gs')
        refine ⟨gs2, ?_, ?_⟩
        · simpa [addLine, hsize] using h1
        · rw [h2]; simp
      · obtain ⟨gs2, h1, h2⟩ := ih ((g ++ [line]) :: gs')
        refine ⟨gs2, ?_, ?_⟩
        · simpa [addLine, hsize] using h1
        · rw [h2]; simp

theorem flatten_map_flatten (gs : List (List (List Char))) :
    (gs.map List.flatten).flatten = gs.flatten.flatten := by
  induction gs with
  | nil => rfl
  | cons g gs ih => simp [ih]

theorem buildChunks_partition (lines : List (List Char)) :
    ∃ groups : List (List (List Char)),
      groups.flatten = lines ∧ buildChunks lines = groups.map List.flatten := by
  obtain ⟨gs2, h1, h2⟩ := foldl_addLine_partition lines []
  refine ⟨gs2.reverse, by simpa using h2, ?_⟩
  rw [buildChunks]
  simp only [List.map_nil] at h1
  rw [h1, ← List.map_reverse]

/-! ## Claim theorems for the logging engine -/

/-- Claim C1: in every flush, every chunk built from one severity's
drained lines either has serialized (UTF-8) byte size at most 2000, or is
exactly one formatted source line emitted verbatim as its own chunk — an
oversized line is never truncated and never split mid-line. -/
theorem chunk_size_limit (sev : Level) (msgs : List LogMessage)
    (chunk : List Char) (h : chunk ∈ (flushSeverity sev msgs).2) :
    utf8Len chunk ≤ 2000 ∨ chunk ∈ splitInclusiveNl (preChunked msgs) := by
  have hc : chunk ∈ chunksOf msgs := by simpa [flushSeverity] using h
  exact buildChunks_bounded _ chunk hc

/-- Witness for C1 at a concrete flush. -/
theorem chunk_size_limit_witness :
    ("`[a]`: hello\n".toList ∈
      (flushSeverity Level.info [("a".toList, "hello".toList)]).2) ∧
    (utf8Len "`[a]`: hello\n".toList ≤ 2000 ∨
      "`[a]`: hello\n".toList ∈
        splitInclusiveNl (preChunked [("a".toList, "hello".toList)])) :=
  ⟨by decide,
   chunk_size_limit Level.info [("a".toList, "hello".toList)] _ (by decide)⟩

/-- Claim C2: for each severity drained in one tick, the emitted chunks
concatenate back to the full formatted text, the lines of that text are
exactly the formatted lines of the buffered events (given that no target
name contains a newline), and the chunk list is the image of a
consecutive partition of those lines — every formatted line appears
exactly once, in the original order, and chunks are split only at line
boundaries. -/
theorem flush_reassembles (sev : Level) (msgs : List LogMessage)
    (h : ∀ m ∈ msgs, '\n' ∉ m.1) :
    ((flushSeverity sev msgs).2).flatten = preChunked msgs ∧
    splitInclusiveNl (preChunked msgs) = formattedLines msgs ∧
    ∃ groups : List (List (List Char)),
      groups.flatten = formattedLines msgs ∧
      (flushSeverity sev msgs).2 = groups.map List.flatten := by
  have hlines : splitInclusiveNl (preChunked msgs) = formattedLines msgs := by
    rw [preChunked]
    apply splitInclusiveNl_flatten_lines
    intro l hl
    simp only [formattedLines, List.mem_flatMap, List.mem_map] at hl
    obtain ⟨m, hm, body, hbody, rfl⟩ := hl
    exact formatLine_shape m.1 body (h m hm) (splitNl_no_newline _ body hbody)
  obtain ⟨groups, hg1, hg2⟩ := buildChunks_partition (splitInclusiveNl (preChunked msgs))
  have hflat : (chunksOf msgs).flatten = preChunked msgs := by
    rw [chunksOf, hg2, flatten_map_flatten, hg1, splitInclusiveNl_flatten]
  refine ⟨by simpa [flushSeverity] using hflat, hlines, groups, ?_, ?_⟩
  · rw [hg1, hlines]
  · simpa [flushSeverity, chunksOf] using hg2

/-- Witness for C2 at a concrete flush. -/
theorem flush_reassembles_witness :
    (∀ m ∈ [(("a".toList : List Char), "hello".toList)], '\n' ∉ m.1) ∧
    (((flushSeverity Level.info [("a".toList, "hello".toList)]).2).flatten
        = preChunked [("a".toList, "hello".toList)] ∧
      splitInclusiveNl (preChunked [("a".toList, "hello".toList)])
        = formattedLines [("a".toList, "hello".toList)] ∧
      ∃ groups : List (List (List Char)),
        groups.flatten = formattedLines [("a".toList, "hello".toList)] ∧
        (flushSeverity Level.info [("a".toList, "hello".toList)]).2
          = groups.map List.flatten) :=
  ⟨by decide, flush_reassembles Level.info [("a".toList, "hello".toList)] (by decide)⟩

/-- Claim C6: during flush, a chunk's destination is the "error" webhook
exactly when its severity is ≥ Error in the spec's ordering
(Trace < Debug < Info < Warn < Error) — that is, exactly for the Error
severity — and the "normal" webhook otherwise. -/
theorem route_by_severity (sev : Level) (msgs : List LogMessage) :
    ((flushSeverity sev msgs).1 = Dest.error ↔ specLe Level.error sev = true) ∧
    ((flushSeverity sev msgs).1 = Dest.error ↔ sev = Level.error) ∧
    ((flushSeverity sev msgs).1 = Dest.normal ↔ ¬ sev = Level.error) := by
  cases sev <;>
    simp [flushSeverity, Level.tracingLe, Level.verbosity, specLe, Level.specIdx]

def exampleTwo : List LogMessage :=
  [("a".toList, "hello".toList), ("b".toList, "world".toList)]

/-- Claim C7 (counterexample): emitting the Info lines `[a]: hello` and
`[b]: world` in one tick does not yield the chunk the spec states — the
source wraps the target in backticks when formatting each line. -/
theorem flush_example_refuted :
    flushSeverity Level.info exampleTwo
      ≠ (Dest.normal, ["[a]: hello\n[b]: world\n".toList]) := by
  decide

/-- Claim C7 (amended): the example yields exactly one chunk, whose
content formats each event as the line "`[source]`: text" (source wrapped
in backticks), delivered to the normal destination. -/
theorem flush_example_amended :
    flushSeverity Level.info exampleTwo
      = (Dest.normal, ["`[a]`: hello\n`[b]`: world\n".toList]) := by
  decide

/-! ## Error reporting (`src/errors.rs`) -/

/-- Rust `str::is_char_boundary` at byte index `i` (errors.rs line 97):
true iff `i` is the UTF-8 byte length of some prefix of whole characters
(0 and the total length included; indices past the end are not
boundaries). -/
def isCharBoundary (s : List Char) (i : Nat) : Bool :=
  (List.range (s.length + 1)).any fun k => utf8Len (s.take k) == i

/-- The backoff loop of errors.rs lines 96-99: starting from `n` (the
source starts at 256), decrement while the index is not a char boundary.
Index 0 is always a boundary, so returning 0 at fuel 0 coincides with
the source loop stopping there. -/
def boundaryBackoff (s : List Char) : Nat → Nat
  | 0 => 0
  | n + 1 => if isCharBoundary s (n + 1) then n + 1 else boundaryBackoff s n

/-- Rust `String::truncate(n)` (errors.rs line 101): keep the longest
prefix of whole characters whose byte length fits in `n`.  For `n` on a
char boundary this keeps exactly the first `n` bytes, and for `n ≥ len`
it is a no-op, matching the source (which only calls it on a boundary). -/
def truncateAt : List Char → Nat → List Char
  | [], _ => []
  | c :: rest, n =>
    if c.utf8Size ≤ n then c :: truncateAt rest (n - c.utf8Size) else []

/-- The short-form error summary (errors.rs lines 92-103): the canonical
error message truncated at the largest char boundary ≤ 256 bytes. -/
def shortError (s : List Char) : List Char :=
  truncateAt s (boundaryBackoff s 256)

theorem utf8Len_cons (c : Char) (s : List Char) :
    utf8Len (c :: s) = c.utf8Size + utf8Len s := by
  simp [utf8Len]

theorem boundaryBackoff_le (s : List Char) (n : Nat) : boundaryBackoff s n ≤ n := by
  induction n with
  | zero => simp [boundaryBackoff]
  | succ n ih =>
    rw [boundaryBackoff]
    split
    · exact Nat.le_refl _
    · exact Nat.le_trans ih (Nat.le_succ n)

theorem isCharBoundary_iff (s : List Char) (i : Nat) :
    isCharBoundary s i = true ↔ ∃ k, k ≤ s.length ∧ utf8Len (s.take k) = i := by
  simp [isCharBoundary, List.any_eq_true, List.mem_range, Nat.lt_succ_iff]

theorem boundaryBackoff_maximal (s : List Char) (n : Nat) :
    ∀ j ≤ n, isCharBoundary s j = true → j ≤ boundaryBackoff s n := by
  induction n with
  | zero => intro j hj _; omega
  | succ n ih =>
    intro j hj hb
    rw [boundaryBackoff]
    split
    · exact hj
    · rename_i hnot
      rcases Nat.eq_or_lt_of_le hj with rfl | h
      · exact absurd hb hnot
      · exact ih j (by omega) hb

theorem truncateAt_spec (s : List Char) (n : Nat) :
    ∃ k, truncateAt s n = s.take k ∧ utf8Len (s.take k) ≤ n ∧
      (k = s.length ∨ n < utf8Len (s.take (k + 1))) := by
  induction s generalizing n with
  | nil => exact ⟨0, rfl, by simp [utf8Len], Or.inl rfl⟩
  | cons c rest ih =>
    by_cases hc : c.utf8Size ≤ n
    · obtain ⟨k, h1, h2, h3⟩ := ih (n - c.utf8Size)
      refine ⟨k + 1, ?_, ?_, ?_⟩
      · simp [truncateAt, hc, h1]
      · rw [List.take_succ_cons, utf8Len_cons]
        omega
      · rcases h3 with h3 | h3
        · exact Or.inl (by simp [h3])
        · right
          rw [List.take_succ_cons, utf8Len_cons]
          omega
    · refine ⟨0, by simp [truncateAt, hc], by simp [utf8Len], Or.inr ?_⟩
      have h1 : utf8Len ((c :: rest).take (0 + 1)) = c.utf8Size := by
        simp [utf8Len]
      omega

/-- Claim C8: the short-form summary is a prefix of whole characters of
the canonical error message whose UTF-8 byte size is at most 256, and it
is maximal: either the whole message fits, or taking one more character
would exceed 256 bytes (the truncation backs off to the nearest char
boundary and never splits a multi-byte code point). -/
theorem short_error_sound (s : List Char) :
    ∃ k, shortError s = s.take k ∧ utf8Len (s.take k) ≤ 256 ∧
      (k = s.length ∨ 256 < utf8Len (s.take (k + 1))) := by
  obtain ⟨k, h1, h2, h3⟩ := truncateAt_spec s (boundaryBackoff s 256)
  refine ⟨k, h1, Nat.le_trans h2 (boundaryBackoff_le s 256), ?_⟩
  rcases h3 with h3 | h3
  · exact Or.inl h3
  · right
    by_contra hle
    push_neg at hle
    have hklen : k < s.length := by
      by_contra hk
      push_neg at hk
      have e1 : s.take k = s := List.take_of_length_le hk
      have e2 : s.take (k + 1) = s := List.take_of_length_le (by omega)
      rw [e1] at h2
      rw [e2] at h3
      omega
    have hb : isCharBoundary s (utf8Len (s.take (k + 1))) = true :=
      (isCharBoundary_iff s _).mpr ⟨k + 1, by omega, rfl⟩
    have hmax := boundaryBackoff_maximal s 256 _ hle hb
    omega

/-- A persisted row of the `errors` table (errors.rs lines 6-12):
full traceback text, the posted summary message's id, and the
occurrence counter (`DEFAULT 1`). -/
structure ErrorRecord where
  traceback : List Char
  messageId : Nat
  occurrences : Nat
deriving DecidableEq

/-- The persisted `errors` table, keyed by the traceback digest
(`traceback_hash`); digest bytes are modelled as `List Nat`. -/
abbrev Store := List (List Nat × ErrorRecord)

/-- A remote summary message: the embed's title (the short error) and its
footer text (the occurrence counter line).  The context/telemetry fields
of the embed are external display data and are not modelled. -/
structure RemoteMsg where
  title : List Char
  footer : List Char
deriving DecidableEq

/-- The world the reporter acts on: the persisted store, the live remote
messages of the error webhook's channel, and the next fresh message id
the remote side will assign. -/
structure SysState where
  store : Store
  messages : List (Nat × RemoteMsg)
  nextId : Nat
deriving DecidableEq

/-- Which external call of `handle_unexpected` failed (each is `?`-
propagated in the source). -/
inductive ErrKind
  | acquireFailed | updateFailed | getFailed | editFailed
  | postFailed | insertFailed | deleteFailed
deriving DecidableEq

/-- Outcome oracle for the fallible external calls: database connection
acquire, the two SQL statements, and the four webhook HTTP calls. -/
structure Oracle where
  acquireFails : Bool
  updateFails : Bool
  getFails : Bool
  editFails : Bool
  postFails : Bool
  insertFails : Bool
  deleteFails : Bool
deriving DecidableEq

def noFailures : Oracle := ⟨false, false, false, false, false, false, false⟩

def lookupStore : Store → List Nat → Option ErrorRecord
  | [], _ => none
  | (k, r) :: rest, sig => if k = sig then some r else lookupStore rest sig

/-- The statement `UPDATE errors SET occurrences = occurrences + 1 WHERE
traceback_hash = $1` applied to the matching row (errors.rs lines 76-80). -/
def bumpStore : Store → List Nat → Store
  | [], _ => []
  | (k, r) :: rest, sig =>
    if k = sig then (k, { r with occurrences := r.occurrences + 1 }) :: rest
    else (k, r) :: bumpStore rest sig

def lookupMsg : List (Nat × RemoteMsg) → Nat → Option RemoteMsg
  | [], _ => none
  | (k, m) :: rest, mid => if k = mid then some m else lookupMsg rest mid

def setMsg : List (Nat × RemoteMsg) → Nat → RemoteMsg → List (Nat × RemoteMsg)
  | [], _, _ => []
  | (k, m) :: rest, mid, newMsg =>
    if k = mid then (k, newMsg) :: rest else (k, m) :: setMsg rest mid newMsg

def removeMsg : List (Nat × RemoteMsg) → Nat → List (Nat × RemoteMsg)
  | [], _ => []
  | (k, m) :: rest, mid =>
    if k = mid then removeMsg rest mid else (k, m) :: removeMsg rest mid

/-- Footer text written by the update path (errors.rs line 85):
`format!("This error has occurred {} times!", occurrences)`. -/
def footerText (n : Nat) : List Char :=
  ("This error has occurred " ++ toString n ++ " times!").toList

/-- Footer text set on a newly created report (errors.rs line 153). -/
def firstFooter : List Char := "This error has occurred 1 time!".toList

/-- The update path (errors.rs lines 81-90): fetch the existing summary
message by id, rewrite its footer to state the new count, push the edit.
`st` already reflects the executed UPDATE; `messageId` and `occurrences`
are the values the query returned. -/
def updatePath (o : Oracle) (st : SysState) (messageId occurrences : Nat) :
    SysState × Option ErrKind :=
  if o.getFails then (st, some .getFailed) else
  match lookupMsg st.messages messageId with
  | none => (st, some .getFailed)
  | some msg =>
    if o.editFails then (st, some .editFailed)
    else
      let newMsg : RemoteMsg := { msg with footer := footerText occurrences }
      ({ st with messages := setMsg st.messages messageId newMsg }, none)

/-- The create path's persistence tail (errors.rs lines 167-178):
`INSERT INTO errors .. ON CONFLICT (traceback_hash) DO UPDATE SET
occurrences = errors.occurrences + 1 RETURNING errors.message_id`, then
delete the just-posted message when the returned id differs from it.
Split out as its own step so that the store contents at persist time may
differ from what the conditional UPDATE saw — the insert race with a
concurrent reporter of the same signature. -/
def createPersist (o : Oracle) (st : SysState) (sig : List Nat)
    (traceback : List Char) (postedId : Nat) : SysState × Option ErrKind :=
  if o.insertFails then (st, some .insertFailed) else
  match lookupStore st.store sig with
  | some r =>
    let st' := { st with store := bumpStore st.store sig }
    if postedId ≠ r.messageId then
      if o.deleteFails then (st', some .deleteFailed)
      else ({ st' with messages := removeMsg st'.messages postedId }, none)
    else (st', none)
  | none =>
    ({ st with store := st.store ++ [(sig, ⟨traceback, postedId, 1⟩)] }, none)

/-- The create path (errors.rs lines 92-178): build the report embed
(title = the truncated short error, footer = "This error has occurred 1
time!"), post it via the webhook — the remote side assigns the fresh id
`st.nextId` — then persist the record. -/
def createPath (o : Oracle) (st : SysState) (sig : List Nat)
    (traceback displayText : List Char) : SysState × Option ErrKind :=
  let shortErr := shortError displayText
  if o.postFails then (st, some .postFailed) else
  let postedId := st.nextId
  let st1 := { st with
    messages := st.messages ++ [(postedId, ⟨shortErr, firstFooter⟩)],
    nextId := st.nextId + 1 }
  createPersist o st1 sig traceback postedId

/-- Model of `handle_unexpected` (errors.rs lines 59-182): render the error
(`debugText` = `format!("{:?}", error)`, `displayText` =
`error.to_string()`), digest the canonical text, attempt the conditional
UPDATE, and take the update or create path accordingly.  `hashFn` stands
for the external SHA-256 digest (sha2 crate); only its determinism is
relied on.  The second component is the propagated error, if any; the
first is the resulting external state (external effects persist even
when an error is returned). -/
def handleUnexpected (hashFn : List Char → List Nat) (o : Oracle)
    (debugText displayText : List Char) (st : SysState) :
    SysState × Option ErrKind :=
  let sig := hashFn debugText
  if o.acquireFails then (st, some .acquireFailed) else
  if o.updateFails then (st, some .updateFailed) else
  match lookupStore st.store sig with
  | some r =>
    updatePath o { st with store := bumpStore st.store sig }
      r.messageId (r.occurrences + 1)
  | none => createPath o st sig debugText displayText

/-! ## Lemmas about the modelled store and remote messages -/

theorem lookupStore_bumpStore (store : Store) (sig : List Nat) (r : ErrorRecord)
    (h : lookupStore store sig = some r) :
    lookupStore (bumpStore store sig) sig
      = some { r with occurrences := r.occurrences + 1 } := by
  induction store with
  | nil => simp [lookupStore] at h
  | cons kv rest ih =>
    obtain ⟨k, r'⟩ := kv
    by_cases hk : k = sig
    · rw [lookupStore, if_pos hk] at h
      cases h
      simp [bumpStore, lookupStore, hk]
    · rw [lookupStore, if_neg hk] at h
      simp [bumpStore, lookupStore, hk, ih h]

theorem lookupMsg_removeMsg_self (msgs : List (Nat × RemoteMsg)) (mid : Nat) :
    lookupMsg (removeMsg msgs mid) mid = none := by
  induction msgs with
  | nil => rfl
  | cons kv rest ih =>
    obtain ⟨k, m⟩ := kv
    by_cases hk : k = mid <;> simp [removeMsg, lookupMsg, hk, ih]

theorem lookupMsg_removeMsg_other (msgs : List (Nat × RemoteMsg)) (mid k' : Nat)
    (h : k' ≠ mid) : lookupMsg (removeMsg msgs mid) k' = lookupMsg msgs k' := by
  induction msgs with
  | nil => rfl
  | cons kv rest ih =>
    obtain ⟨k, m⟩ := kv
    by_cases hk : k = mid
    · subst hk
      simp [removeMsg, lookupMsg, Ne.symm h, ih]
    · by_cases hk' : k = k' <;> simp [removeMsg, lookupMsg, hk, hk', h, ih]

/-! ## Claim theorems for the error reporter -/

/-- Claim C3: reporting an error whose canonical full-text rendering is
byte-identical to a previously reported one takes the conditional-update
path: the stored record's occurrences becomes 2, the existing remote
message's footer is edited to state the new count, and no second remote
message is created. -/
theorem duplicate_report_updates (hashFn : List Char → List Nat)
    (debugText displayText : List Char) (n : Nat) :
    let st0 : SysState := ⟨[], [], n⟩
    let r1 := handleUnexpected hashFn noFailures debugText displayText st0
    let r2 := handleUnexpected hashFn noFailures debugText displayText r1.1
    r1.2 = none ∧ r2.2 = none ∧
    lookupStore r2.1.store (hashFn debugText) = some ⟨debugText, n, 2⟩ ∧
    r2.1.messages = [(n, ⟨shortError displayText, footerText 2⟩)] ∧
    footerText 2 = "This error has occurred 2 times!".toList ∧
    r2.1.nextId = n + 1 := by
  have key : handleUnexpected hashFn noFailures debugText displayText ⟨[], [], n⟩
      = (⟨[(hashFn debugText, ⟨debugText, n, 1⟩)],
          [(n, ⟨shortError displayText, firstFooter⟩)], n + 1⟩, none) := by
    simp [handleUnexpected, createPath, createPersist, lookupStore, noFailures]
  have key2 : handleUnexpected hashFn noFailures debugText displayText
        (⟨[(hashFn debugText, ⟨debugText, n, 1⟩)],
          [(n, ⟨shortError displayText, firstFooter⟩)], n + 1⟩ : SysState)
      = (⟨[(hashFn debugText, ⟨debugText, n, 2⟩)],
          [(n, ⟨shortError displayText, footerText 2⟩)], n + 1⟩, none) := by
    simp [handleUnexpected, updatePath, lookupStore, bumpStore, lookupMsg,
      setMsg, noFailures]
  refine ⟨?_, ?_, ?_, ?_, by decide, ?_⟩ <;>
    simp [key, key2, lookupStore]

def raceRecord : ErrorRecord := ⟨"tb".toList, 5, 1⟩

def raceState : SysState :=
  ⟨[([1], raceRecord)],
   [(5, ⟨"t".toList, "f".toList⟩), (7, ⟨"u".toList, "g".toList⟩)], 8⟩

/-- Claim C4: on the create path, when the persist step finds the
signature concurrently created by another caller — the insert's returned
message id differs from the just-posted one — the just-created remote
message is deleted and the winning record is authoritative: the insert
only increments the winner's count, the loser's message is gone from the
live messages, and the winner's message is untouched, so at most one
live remote message remains for the signature. -/
theorem insert_race_converges (o : Oracle) (st : SysState) (sig : List Nat)
    (traceback : List Char) (postedId : Nat) (r : ErrorRecord)
    (hr : lookupStore st.store sig = some r)
    (hneq : postedId ≠ r.messageId)
    (hins : o.insertFails = false) (hdel : o.deleteFails = false) :
    (createPersist o st sig traceback postedId).2 = none ∧
    (createPersist o st sig traceback postedId).1.store = bumpStore st.store sig ∧
    lookupStore (createPersist o st sig traceback postedId).1.store sig
      = some ⟨r.traceback, r.messageId, r.occurrences + 1⟩ ∧
    lookupMsg (createPersist o st sig traceback postedId).1.messages postedId = none ∧
    lookupMsg (createPersist o st sig traceback postedId).1.messages r.messageId
      = lookupMsg st.messages r.messageId := by
  refine ⟨?_, ?_, ?_, ?_, ?_⟩ <;>
    simp [createPersist, hins, hdel, hr, hneq,
      lookupStore_bumpStore st.store sig r hr,
      lookupMsg_removeMsg_self,
      lookupMsg_removeMsg_other st.messages postedId r.messageId (Ne.symm hneq)]

/-- Witness for C4: a concrete interleaved state in which the winner's
record (message id 5) is already persisted when the loser (who posted
message id 7) reaches the insert. -/
theorem insert_race_converges_witness :
    (lookupStore raceState.store [1] = some raceRecord ∧
      (7 : Nat) ≠ raceRecord.messageId ∧
      noFailures.insertFails = false ∧ noFailures.deleteFails = false) ∧
    ((createPersist noFailures raceState [1] "tb".toList 7).2 = none ∧
      (createPersist noFailures raceState [1] "tb".toList 7).1.store
        = bumpStore raceState.store [1] ∧
      lookupStore (createPersist noFailures raceState [1] "tb".toList 7).1.store [1]
        = some ⟨raceRecord.traceback, raceRecord.messageId, raceRecord.occurrences + 1⟩ ∧
      lookupMsg (createPersist noFailures raceState [1] "tb".toList 7).1.messages 7 = none ∧
      lookupMsg (createPersist noFailures raceState [1] "tb".toList 7).1.messages
          raceRecord.messageId
        = lookupMsg raceState.messages raceRecord.messageId) :=
  ⟨⟨by decide, by decide, rfl, rfl⟩,
   insert_race_converges noFailures raceState [1] "tb".toList 7 raceRecord
     (by decide) (by decide) rfl rfl⟩

/-- A concrete stand-in digest for the closed counterexample runs. -/
def byteHash (s : List Char) : List Nat := s.map Char.toNat

def insertFailOracle : Oracle := ⟨false, false, false, false, false, true, false⟩

/-- Claim C9 (counterexample): with the store failing exactly at the
final INSERT of the create path, the error is propagated, but the remote
message posted just before the insert remains while the store holds no
record for it — an orphaned remote message outside the insert-race
window, contradicting the claim that no remote message is left orphaned. -/
theorem insert_failure_orphans :
    (handleUnexpected byteHash insertFailOracle "boom".toList "boom".toList
        ⟨[], [], 0⟩).2 = some ErrKind.insertFailed ∧
    (handleUnexpected byteHash insertFailOracle "boom".toList "boom".toList
        ⟨[], [], 0⟩).1.messages
      = [(0, ⟨shortError "boom".toList, firstFooter⟩)] ∧
    (handleUnexpected byteHash insertFailOracle "boom".toList "boom".toList
        ⟨[], [], 0⟩).1.store = [] :=
  ⟨rfl, rfl, rfl⟩

/-- Claim C9 (amended): store failures during a report are propagated to
the caller.  A failure before the remote message is posted (connection
acquire or the conditional UPDATE) leaves the state untouched, so no
remote message can be orphaned; but a failure at the final INSERT, which
runs after the message was posted, leaves the just-posted message in
place with no store record — only the insert-race conflict path deletes
it, not a store failure. -/
theorem store_failure_outcomes (hashFn : List Char → List Nat) (o : Oracle)
    (debugText displayText : List Char) (st : SysState) :
    (o.acquireFails = true →
      handleUnexpected hashFn o debugText displayText st
        = (st, some ErrKind.acquireFailed)) ∧
    (o.acquireFails = false → o.updateFails = true →
      handleUnexpected hashFn o debugText displayText st
        = (st, some ErrKind.updateFailed)) ∧
    (o.acquireFails = false → o.updateFails = false → o.postFails = false →
      o.insertFails = true →
      lookupStore st.store (hashFn debugText) = none →
      handleUnexpected hashFn o debugText displayText st
        = ({ st with
              messages := st.messages
                ++ [(st.nextId, ⟨shortError displayText, firstFooter⟩)],
              nextId := st.nextId + 1 }, some ErrKind.insertFailed)) := by
  refine ⟨?_, ?_, ?_⟩
  · intro h1
    simp [handleUnexpected, h1]
  · intro h1 h2
    simp [handleUnexpected, h1, h2]
  · intro h1 h2 h3 h4 h5
    simp [handleUnexpected, createPath, createPersist, h1, h2, h3, h4, h5]

/-- Witness for C9's amended theorem at a concrete insert-time failure. -/
theorem store_failure_outcomes_witness :
    (insertFailOracle.acquireFails = false ∧ insertFailOracle.updateFails = false ∧
      insertFailOracle.postFails = false ∧ insertFailOracle.insertFails = true ∧
      lookupStore ([] : Store) (byteHash "x".toList) = none) ∧
    handleUnexpected byteHash insertFailOracle "x".toList "x".toList ⟨[], [], 3⟩
      = (⟨[], [(3, ⟨shortError "x".toList, firstFooter⟩)], 4⟩,
         some ErrKind.insertFailed) :=
  ⟨⟨rfl, rfl, rfl, rfl, rfl⟩,
   (store_failure_outcomes byteHash insertFailOracle "x".toList "x".toList
      ⟨[], [], 3⟩).2.2 rfl rfl rfl rfl rfl⟩

/-- Claim C10: on the update path the record is incremented by the
conditional UPDATE before the remote summary message is fetched or
edited; if the fetch or the edit then fails, the report returns an error
but the incremented counter and the stored record remain in place — the
store update is not rolled back on delivery failure (and the remote
messages are unchanged). -/
theorem update_survives_delivery_failure (hashFn : List Char → List Nat)
    (o : Oracle) (debugText displayText : List Char) (st : SysState)
    (r : ErrorRecord)
    (hacq : o.acquireFails = false) (hupd : o.updateFails = false)
    (hr : lookupStore st.store (hashFn debugText) = some r)
    (hfail : o.getFails = true ∨
      (o.getFails = false ∧ o.editFails = true ∧
        ∃ m, lookupMsg st.messages r.messageId = some m)) :
    ((handleUnexpected hashFn o debugText displayText st).2
        = some ErrKind.getFailed ∨
      (handleUnexpected hashFn o debugText displayText st).2
        = some ErrKind.editFailed) ∧
    (handleUnexpected hashFn o debugText displayText st).1.store
      = bumpStore st.store (hashFn debugText) ∧
    lookupStore (handleUnexpected hashFn o debugText displayText st).1.store
        (hashFn debugText)
      = some ⟨r.traceback, r.messageId, r.occurrences + 1⟩ ∧
    (handleUnexpected hashFn o debugText displayText st).1.messages
      = st.messages := by
  have hb := lookupStore_bumpStore st.store (hashFn debugText) r hr
  rcases hfail with hget | ⟨hget, hedit, m, hm⟩
  · simp [handleUnexpected, updatePath, hacq, hupd, hr, hget, hb]
  · simp [handleUnexpected, updatePath, hacq, hupd, hr, hget, hedit, hm, hb]

def getFailOracle : Oracle := ⟨false, false, true, false, false, false, false⟩

def seenState : SysState :=
  ⟨[(byteHash "err".toList, ⟨"err".toList, 2, 3⟩)],
   [(2, ⟨"err".toList, footerText 3⟩)], 9⟩

/-- Witness for C10: the message fetch fails on a state that already
holds the record with three occurrences; the counter still becomes 4. -/
theorem update_survives_delivery_failure_witness :
    (getFailOracle.acquireFails = false ∧ getFailOracle.updateFails = false ∧
      lookupStore seenState.store (byteHash "err".toList)
        = some ⟨"err".toList, 2, 3⟩ ∧
      getFailOracle.getFails = true) ∧
    (((handleUnexpected byteHash getFailOracle "err".toList "err".toList
          seenState).2 = some ErrKind.getFailed ∨
        (handleUnexpected byteHash getFailOracle "err".toList "err".toList
          seenState).2 = some ErrKind.editFailed) ∧
      (handleUnexpected byteHash getFailOracle "err".toList "err".toList
          seenState).1.store
        = bumpStore seenState.store (byteHash "err".toList) ∧
      lookupStore (handleUnexpected byteHash getFailOracle "err".toList
          "err".toList seenState).1.store (byteHash "err".toList)
        = some ⟨"err".toList, 2, 3 + 1⟩ ∧
      (handleUnexpected byteHash getFailOracle "err".toList "err".toList
          seenState).1.messages = seenState.messages) :=
  ⟨⟨rfl, rfl, by decide, rfl⟩,
   update_survives_delivery_failure byteHash getFailOracle "err".toList
     "err".toList seenState ⟨"err".toList, 2, 3⟩ rfl rfl (by decide)
     (Or.inl rfl)⟩

end GnomeUtils
